import Mathlib

/-!
# Trade analytics and filtering engine: a verification development

Shallow embedding of the pure computation layer of a trading-journal
application: predicate-based filtering and comparator-based sorting of
trade records (`TradeHistory.tsx`), the risk:reward histogram aggregation
(`Analytics.tsx`), the risk:reward ratio computation performed at trade
entry (`TradeJournal.tsx`), and the risk-percentage setting handler
(`Settings.tsx`).

Modelling conventions:
* JavaScript numbers are modelled as `ℚ`; timestamps as `ℤ`.
* Optional / nullable fields are `Option`; a JS falsiness test on an
  optional numeric input is `jsFalsy` (absent/`NaN` is `none`, `0` is falsy).
* Strings are `List Char`; `String.prototype.includes` is `listIncl`,
  `toLowerCase` is `lowerStr`.
* `Number.prototype.toFixed(2)` followed by `parseFloat` is `round2`
  (exact on all inputs considered here, which are far from half-way points).
-/

/-- Trade direction, `'Buy' | 'Sell'` in the source. -/
inductive TradeType
  | Buy
  | Sell
deriving DecidableEq

/-- One logged trade, the fields of the `Trade` record used by the engine
(`src/types/trade`).  `entry_date` / `exit_date` are timestamps. -/
structure Trade where
  pair : List Char
  timeframe : List Char
  type : TradeType
  entry_price : ℚ
  exit_price : Option ℚ
  stop_loss : ℚ
  take_profit : ℚ
  entry_date : ℤ
  exit_date : Option ℤ
  profit_loss : Option ℚ
  risk_reward_ratio : ℚ
  notes : Option (List Char)
deriving DecidableEq

/-- The filter panel state of `TradeHistory.tsx` (the empty string / `false`
defaults that deactivate a criterion are modelled as `none` / `false`). -/
structure Filters where
  pair : Option (List Char)
  timeframe : Option (List Char)
  type : Option TradeType
  dateFrom : Option ℤ
  dateTo : Option ℤ
  profitOnly : Bool
  lossOnly : Bool

/-- Lower-case every character; models `String.prototype.toLowerCase`. -/
def lowerStr (s : List Char) : List Char :=
  s.map Char.toLower

/-- Does the second list start with the first? -/
def listStarts : List Char → List Char → Bool
  | [], _ => true
  | _ :: _, [] => false
  | a :: as, b :: bs => a == b && listStarts as bs

/-- Does `needle` occur contiguously inside the second list?  Models
`String.prototype.includes`. -/
def listIncl (needle : List Char) : List Char → Bool
  | [] => needle.isEmpty
  | b :: bs => listStarts needle (b :: bs) || listIncl needle bs

/-- Direct translation of the filter callback of `TradeHistory.tsx`
(lines 61-103): a chain of early-`return false` rejection tests, one per
criterion, falling through to `true`. -/
def tradeMatches (st : List Char) (f : Filters) (t : Trade) : Bool :=
  if !st.isEmpty && !(listIncl (lowerStr st) (lowerStr t.pair)) &&
      !(t.notes.elim false (fun n => listIncl (lowerStr st) (lowerStr n))) then
    false
  else if f.pair.elim false (fun p => t.pair != p) then
    false
  else if f.timeframe.elim false (fun tf => t.timeframe != tf) then
    false
  else if f.type.elim false (fun ty => t.type != ty) then
    false
  else if f.dateFrom.elim false (fun d => decide (t.entry_date < d)) then
    false
  else if f.dateTo.elim false (fun d => decide (d < t.entry_date)) then
    false
  else if f.profitOnly && decide (t.profit_loss.getD 0 ≤ 0) then
    false
  else if f.lossOnly && decide (0 ≤ t.profit_loss.getD 0) then
    false
  else
    true

/-- `filteredTrades` of `TradeHistory.tsx`: `trades.filter(callback)`. -/
def filteredTrades (st : List Char) (f : Filters) (trades : List Trade) : List Trade :=
  trades.filter (tradeMatches st f)

/-- The specification's reading of the filter: a positive conjunction of the
active criteria, written as one boolean conjunct per criterion. -/
def satisfiesB (st : List Char) (f : Filters) (t : Trade) : Bool :=
  (st.isEmpty || listIncl (lowerStr st) (lowerStr t.pair) ||
    t.notes.elim false (fun n => listIncl (lowerStr st) (lowerStr n))) &&
  (f.pair.elim true (fun p => t.pair == p)) &&
  (f.timeframe.elim true (fun tf => t.timeframe == tf)) &&
  (f.type.elim true (fun ty => t.type == ty)) &&
  (f.dateFrom.elim true (fun d => decide (d ≤ t.entry_date))) &&
  (f.dateTo.elim true (fun d => decide (t.entry_date ≤ d))) &&
  (!f.profitOnly || decide (0 < t.profit_loss.getD 0)) &&
  (!f.lossOnly || decide (t.profit_loss.getD 0 < 0))

/-- The search criterion as the specification phrases it: empty search term,
or a case-insensitive substring of the pair, or of the notes when present. -/
def searchCriterion (st : List Char) (t : Trade) : Prop :=
  st = [] ∨ listIncl (lowerStr st) (lowerStr t.pair) = true ∨
    ∃ n, t.notes = some n ∧ listIncl (lowerStr st) (lowerStr n) = true

/-- The specification's retention predicate: the conjunction of every active
criterion, stated in propositional form. -/
def satisfiesCriteria (st : List Char) (f : Filters) (t : Trade) : Prop :=
  searchCriterion st t ∧
  (∀ p, f.pair = some p → t.pair = p) ∧
  (∀ tf, f.timeframe = some tf → t.timeframe = tf) ∧
  (∀ ty, f.type = some ty → t.type = ty) ∧
  (∀ d, f.dateFrom = some d → d ≤ t.entry_date) ∧
  (∀ d, f.dateTo = some d → t.entry_date ≤ d) ∧
  (f.profitOnly = true → 0 < t.profit_loss.getD 0) ∧
  (f.lossOnly = true → t.profit_loss.getD 0 < 0)

lemma isEmpty_iff_nil {s : List Char} : s.isEmpty = true ↔ s = [] := by
  cases s <;> simp [List.isEmpty]

lemma ite_false_eq_true (c x : Bool) :
    ((if c then false else x) = true) ↔ (c = false ∧ x = true) := by
  cases c <;> simp

lemma search_pos_iff (st : List Char) (t : Trade) :
    (st.isEmpty || listIncl (lowerStr st) (lowerStr t.pair) ||
      t.notes.elim false (fun n => listIncl (lowerStr st) (lowerStr n))) = true ↔
      searchCriterion st t := by
  cases hn : t.notes <;>
    simp [searchCriterion, isEmpty_iff_nil, hn, or_assoc]

lemma not_and3_eq_false (a b c : Bool) :
    ((!a && !b && !c) = false) ↔ (a = true ∨ b = true ∨ c = true) := by
  cases a <;> cases b <;> cases c <;> simp

lemma search_neg_iff (st : List Char) (t : Trade) :
    (!st.isEmpty && !(listIncl (lowerStr st) (lowerStr t.pair)) &&
      !(t.notes.elim false (fun n => listIncl (lowerStr st) (lowerStr n)))) = false ↔
      searchCriterion st t := by
  rw [not_and3_eq_false]
  cases hn : t.notes <;>
    simp [searchCriterion, isEmpty_iff_nil, hn, or_assoc]

lemma opt_eq_pos_iff {β : Type} [BEq β] [LawfulBEq β] (o : Option β) (x : β) :
    (o.elim true (fun p => x == p)) = true ↔ (∀ p, o = some p → x = p) := by
  cases o <;> simp

lemma opt_eq_neg_iff {β : Type} [BEq β] [LawfulBEq β] (o : Option β) (x : β) :
    (o.elim false (fun p => x != p)) = false ↔ (∀ p, o = some p → x = p) := by
  cases o <;> simp

lemma date_from_pos_iff (o : Option ℤ) (x : ℤ) :
    (o.elim true (fun d => decide (d ≤ x))) = true ↔ (∀ d, o = some d → d ≤ x) := by
  cases o <;> simp

lemma date_from_neg_iff (o : Option ℤ) (x : ℤ) :
    (o.elim false (fun d => decide (x < d))) = false ↔ (∀ d, o = some d → d ≤ x) := by
  cases o <;> simp

lemma date_to_pos_iff (o : Option ℤ) (x : ℤ) :
    (o.elim true (fun d => decide (x ≤ d))) = true ↔ (∀ d, o = some d → x ≤ d) := by
  cases o <;> simp

lemma date_to_neg_iff (o : Option ℤ) (x : ℤ) :
    (o.elim false (fun d => decide (d < x))) = false ↔ (∀ d, o = some d → x ≤ d) := by
  cases o <;> simp

lemma flag_pos_iff (b : Bool) (P : Prop) [Decidable P] :
    (!b || decide P) = true ↔ (b = true → P) := by
  cases b <;> simp

lemma flag_profit_neg_iff (b : Bool) (x : ℚ) :
    (b && decide (x ≤ 0)) = false ↔ (b = true → 0 < x) := by
  cases b <;> simp

lemma flag_loss_neg_iff (b : Bool) (x : ℚ) :
    (b && decide (0 ≤ x)) = false ↔ (b = true → x < 0) := by
  cases b <;> simp

lemma tradeMatches_iff (st : List Char) (f : Filters) (t : Trade) :
    tradeMatches st f t = true ↔ satisfiesCriteria st f t := by
  unfold tradeMatches satisfiesCriteria
  simp only [ite_false_eq_true, search_neg_iff, opt_eq_neg_iff, date_from_neg_iff,
    date_to_neg_iff, flag_profit_neg_iff, flag_loss_neg_iff]
  tauto

lemma satisfiesB_iff (st : List Char) (f : Filters) (t : Trade) :
    satisfiesB st f t = true ↔ satisfiesCriteria st f t := by
  unfold satisfiesB satisfiesCriteria
  simp only [Bool.and_eq_true, search_pos_iff, opt_eq_pos_iff, date_from_pos_iff,
    date_to_pos_iff, flag_pos_iff]
  tauto

lemma tradeMatches_eq_satisfiesB (st : List Char) (f : Filters) (t : Trade) :
    tradeMatches st f t = satisfiesB st f t := by
  rw [Bool.eq_iff_iff, tradeMatches_iff, satisfiesB_iff]

/-- Sort keys offered by the table header of `TradeHistory.tsx` (the seven
`requestSort` call sites). -/
inductive SortKey
  | pair
  | type
  | entry_date
  | entry_price
  | exit_price
  | profit_loss
  | risk_reward_ratio
deriving DecidableEq

/-- Value type carried by each sort key.  JS compares `pair` strings
lexicographically, the strings `'Buy' < 'Sell'` are mirrored by a numeric
rank, and ISO date strings compare like their timestamps. -/
def KeyType : SortKey → Type
  | .pair => List Char
  | .type => ℕ
  | .entry_date => ℤ
  | .entry_price => ℚ
  | .exit_price => ℚ
  | .profit_loss => ℚ
  | .risk_reward_ratio => ℚ

/-- Rank mirroring the lexicographic order of the strings `'Buy' < 'Sell'`. -/
def typeRank : TradeType → ℕ
  | .Buy => 0
  | .Sell => 1

/-- The value `trade[key]`; `none` when the field is null. -/
def keyVal : (k : SortKey) → Trade → Option (KeyType k)
  | .pair, t => some t.pair
  | .type, t => some (typeRank t.type)
  | .entry_date, t => some t.entry_date
  | .entry_price, t => some t.entry_price
  | .exit_price, t => t.exit_price
  | .profit_loss, t => t.profit_loss
  | .risk_reward_ratio, t => some t.risk_reward_ratio

instance keyLinearOrder : (k : SortKey) → LinearOrder (KeyType k)
  | .pair => inferInstanceAs (LinearOrder (List Char))
  | .type => inferInstanceAs (LinearOrder ℕ)
  | .entry_date => inferInstanceAs (LinearOrder ℤ)
  | .entry_price => inferInstanceAs (LinearOrder ℚ)
  | .exit_price => inferInstanceAs (LinearOrder ℚ)
  | .profit_loss => inferInstanceAs (LinearOrder ℚ)
  | .risk_reward_ratio => inferInstanceAs (LinearOrder ℚ)

/-- Direct translation of the comparator passed to `[...filteredTrades].sort`
in `TradeHistory.tsx` (lines 111-122): a null value in `a` sorts it
after everything (`1`), a null in `b` sorts `b` after (`-1`), otherwise the
natural order of the values, flipped by the direction flag. -/
def cmpJS {α K : Type} [LinearOrder K] (v : α → Option K) (asc : Bool) (a b : α) : ℤ :=
  match v a, v b with
  | none, _ => 1
  | some _, none => -1
  | some x, some y =>
    if x < y then (if asc then -1 else 1)
    else if y < x then (if asc then 1 else -1)
    else 0

/-- `a` may be placed before `b` when the comparator does not strictly order
`b` before `a`.  A stable sort by this relation models the ES2019 stable
`Array.prototype.sort` applied to the comparator above. -/
def jsRel {α K : Type} [LinearOrder K] (v : α → Option K) (asc : Bool) (a b : α) : Prop :=
  0 ≤ cmpJS v asc b a

instance jsRelDecidable {α K : Type} [LinearOrder K] (v : α → Option K) (asc : Bool) :
    DecidableRel (jsRel v asc) :=
  fun a b => Int.decLe 0 (cmpJS v asc b a)

/-- `sortedTrades` of `TradeHistory.tsx`: a stable sort of the filtered list
by the active key and direction (`asc = true` for `'asc'`). -/
def sortedTrades (k : SortKey) (asc : Bool) (l : List Trade) : List Trade :=
  List.insertionSort (jsRel (keyVal k) asc) l

/-- Null viewed as `⊤`: the effective ascending key. -/
def keyTop {α K : Type} [LinearOrder K] (v : α → Option K) (a : α) : WithTop K :=
  match v a with
  | none => ⊤
  | some x => (x : WithTop K)

/-- Null viewed as `⊥`: the effective descending key. -/
def keyBot {α K : Type} [LinearOrder K] (v : α → Option K) (a : α) : WithBot K :=
  match v a with
  | none => ⊥
  | some x => (x : WithBot K)

lemma jsRel_true_iff {α K : Type} [LinearOrder K] (v : α → Option K) (a b : α) :
    jsRel v true a b ↔ keyTop v a ≤ keyTop v b := by
  unfold jsRel cmpJS keyTop
  rcases ha : v a with _ | x <;> rcases hb : v b with _ | y <;> simp
  rcases lt_trichotomy x y with h | h | h
  · simp [h, h.not_lt, h.le]
  · simp [h]
  · simp [h, h.not_lt, h.le, not_le_of_lt h]

lemma jsRel_false_iff {α K : Type} [LinearOrder K] (v : α → Option K) (a b : α) :
    jsRel v false a b ↔ keyBot v b ≤ keyBot v a := by
  unfold jsRel cmpJS keyBot
  rcases ha : v a with _ | x <;> rcases hb : v b with _ | y <;> simp
  rcases lt_trichotomy x y with h | h | h
  · simp [h, h.not_lt, h.le, not_le_of_lt h]
  · simp [h]
  · simp [h, h.not_lt, h.le]

lemma jsRel_total {α K : Type} [LinearOrder K] (v : α → Option K) (asc : Bool) :
    ∀ a b, jsRel v asc a b ∨ jsRel v asc b a := by
  intro a b
  cases asc
  · rw [jsRel_false_iff, jsRel_false_iff]
    exact le_total _ _
  · rw [jsRel_true_iff, jsRel_true_iff]
    exact le_total _ _

lemma jsRel_trans {α K : Type} [LinearOrder K] (v : α → Option K) (asc : Bool) :
    ∀ a b c, jsRel v asc a b → jsRel v asc b c → jsRel v asc a c := by
  intro a b c h1 h2
  cases asc
  · rw [jsRel_false_iff] at h1 h2 ⊢
    exact le_trans h2 h1
  · rw [jsRel_true_iff] at h1 h2 ⊢
    exact le_trans h1 h2

lemma sorted_sortedTrades (k : SortKey) (asc : Bool) (l : List Trade) :
    (sortedTrades k asc l).Pairwise (jsRel (keyVal k) asc) := by
  haveI : IsTotal Trade (jsRel (keyVal k) asc) := ⟨jsRel_total _ _⟩
  haveI : IsTrans Trade (jsRel (keyVal k) asc) := ⟨jsRel_trans _ _⟩
  exact List.sorted_insertionSort _ l

lemma perm_sortedTrades (k : SortKey) (asc : Bool) (l : List Trade) :
    List.Perm (sortedTrades k asc l) l :=
  List.perm_insertionSort _ l

lemma pairwise_filter_append {α : Type} {r : α → α → Prop} {p : α → Bool} :
    ∀ {l : List α}, l.Pairwise r → (∀ a b, r a b → p a = false → p b = false) →
      l = l.filter p ++ l.filter (fun a => !(p a)) := by
  intro l hl hr
  induction l with
  | nil => simp
  | cons a l ih =>
    rcases List.pairwise_cons.mp hl with ⟨ha, hl'⟩
    by_cases hpa : p a = true
    · rw [List.filter_cons_of_pos hpa, List.filter_cons_of_neg (by simp [hpa])]
      simpa using ih hl'
    · have hfa : p a = false := by simpa using hpa
      have hall : ∀ b ∈ l, p b = false := fun b hb => hr a b (ha b hb) hfa
      rw [List.filter_cons_of_neg hpa, List.filter_cons_of_pos (by simp [hfa])]
      have h1 : l.filter p = [] := List.filter_eq_nil_iff.mpr (fun b hb => by simp [hall b hb])
      have h2 : l.filter (fun a => !(p a)) = l :=
        List.filter_eq_self.mpr (fun b hb => by simp [hall b hb])
      simp [h1, h2]

lemma keyBot_eq_bot {α K : Type} [LinearOrder K] (v : α → Option K) (a : α) :
    keyBot v a = ⊥ ↔ v a = none := by
  unfold keyBot
  rcases h : v a with _ | x <;> simp

lemma keyTop_eq_top {α K : Type} [LinearOrder K] (v : α → Option K) (a : α) :
    keyTop v a = ⊤ ↔ v a = none := by
  unfold keyTop
  rcases h : v a with _ | x <;> simp

lemma jsRel_none {α K : Type} [LinearOrder K] (v : α → Option K) (asc : Bool) {a b : α}
    (h : jsRel v asc a b) (ha : v a = none) : v b = none := by
  cases asc
  · rw [jsRel_false_iff] at h
    rw [← keyBot_eq_bot] at ha ⊢
    rw [ha] at h
    exact le_bot_iff.mp h
  · rw [jsRel_true_iff] at h
    rw [← keyTop_eq_top] at ha ⊢
    rw [ha] at h
    exact top_le_iff.mp (ha ▸ h)

lemma insertionSort_filter_stable {α : Type} {r : α → α → Prop} [DecidableRel r] {p : α → Bool}
    (hp : ∀ a b, p a = true → p b = true → r a b) :
    ∀ l : List α, (List.insertionSort r l).filter p = l.filter p := by
  intro l
  induction l with
  | nil => rfl
  | cons a l ih =>
    show (List.orderedInsert r a (List.insertionSort r l)).filter p = (a :: l).filter p
    rw [List.orderedInsert_eq_take_drop, List.filter_append]
    have hsplit : ((List.insertionSort r l).takeWhile fun b => ¬r a b) ++
        ((List.insertionSort r l).dropWhile fun b => ¬r a b) = List.insertionSort r l :=
      List.takeWhile_append_dropWhile _ _
    by_cases hpa : p a = true
    · have htake : ((List.insertionSort r l).takeWhile fun b => ¬r a b).filter p = [] := by
        refine List.filter_eq_nil_iff.mpr (fun b hb hpb => ?_)
        have hnr : ¬r a b := by simpa using List.mem_takeWhile_imp hb
        exact hnr (hp a b hpa hpb)
      rw [List.filter_cons_of_pos hpa, htake]
      have hdrop : (List.insertionSort r l).filter p =
          ((List.insertionSort r l).dropWhile fun b => ¬r a b).filter p := by
        conv_lhs => rw [← hsplit]
        rw [List.filter_append, htake]
        simp
      rw [List.filter_cons_of_pos hpa]
      simp only [List.nil_append]
      rw [← hdrop, ih]
    · rw [List.filter_cons_of_neg hpa, List.filter_cons_of_neg hpa]
      calc ((List.insertionSort r l).takeWhile fun b => ¬r a b).filter p ++
            ((List.insertionSort r l).dropWhile fun b => ¬r a b).filter p
          = (((List.insertionSort r l).takeWhile fun b => ¬r a b) ++
            ((List.insertionSort r l).dropWhile fun b => ¬r a b)).filter p := by
            rw [List.filter_append]
        _ = (List.insertionSort r l).filter p := by rw [hsplit]
        _ = l.filter p := ih

lemma jsRel_of_keyVal_eq (k : SortKey) (asc : Bool) {a b : Trade}
    (h : keyVal k a = keyVal k b) : jsRel (keyVal k) asc a b := by
  cases asc
  · rw [jsRel_false_iff]
    unfold keyBot
    rw [h]
  · rw [jsRel_true_iff]
    unfold keyTop
    rw [h]

/-- C3: `filteredTrades` keeps exactly the records, in input order, that
satisfy the conjunction of all active criteria: case-insensitive substring
search over pair or notes, exact pair/timeframe/type match, inclusive
entry-date bounds, and the profit-only / loss-only sign conditions with null
`profit_loss` treated as `0` and hence excluded by either flag. -/
theorem c3_filter_is_conjunction :
    ∀ (st : List Char) (f : Filters) (l : List Trade),
      filteredTrades st f l = l.filter (satisfiesB st f) ∧
      ∀ t, satisfiesB st f t = true ↔ satisfiesCriteria st f t := by
  intro st f l
  refine ⟨?_, satisfiesB_iff st f⟩
  unfold filteredTrades
  exact List.filter_congr (fun t _ => tradeMatches_eq_satisfiesB st f t)

lemma sortedTrades_nulls_last (l : List Trade) (k : SortKey) (asc : Bool) :
    sortedTrades k asc l =
      (sortedTrades k asc l).filter (fun t => !(keyVal k t).isNone) ++
        (sortedTrades k asc l).filter (fun t => (keyVal k t).isNone) := by
  have hs := sorted_sortedTrades k asc l
  have hstep : ∀ a b : Trade, jsRel (keyVal k) asc a b →
      (!(keyVal k a).isNone) = false → (!(keyVal k b).isNone) = false := by
    intro a b hab hpa
    have ha : keyVal k a = none := by
      rcases h : keyVal k a with _ | x
      · rfl
      · rw [h] at hpa
        simp at hpa
    have := jsRel_none (keyVal k) asc hab ha
    simp [this]
  have := pairwise_filter_append hs hstep
  calc sortedTrades k asc l
      = (sortedTrades k asc l).filter (fun t => !(keyVal k t).isNone) ++
          (sortedTrades k asc l).filter (fun t => !(!(keyVal k t).isNone)) := this
    _ = (sortedTrades k asc l).filter (fun t => !(keyVal k t).isNone) ++
          (sortedTrades k asc l).filter (fun t => (keyVal k t).isNone) := by
          simp

/-- C6: for every record list, sort key and direction, the sorted output is
its non-null-key part followed by its null-key part: every record whose sort
value is null comes after every record whose sort value is present. -/
theorem c6_nulls_sort_last :
    ∀ (l : List Trade) (k : SortKey) (asc : Bool),
      sortedTrades k asc l =
        (sortedTrades k asc l).filter (fun t => !(keyVal k t).isNone) ++
          (sortedTrades k asc l).filter (fun t => (keyVal k t).isNone) :=
  fun l k asc => sortedTrades_nulls_last l k asc

/-- C7: the sort is stable: for every possible value of the sort key
(including null), the subsequence of records carrying exactly that value is
the same, in the same order, before and after sorting. -/
theorem c7_sort_stable :
    ∀ (l : List Trade) (k : SortKey) (asc : Bool) (w : Option (KeyType k)),
      (sortedTrades k asc l).filter (fun t => decide (keyVal k t = w)) =
        l.filter (fun t => decide (keyVal k t = w)) := by
  intro l k asc w
  refine insertionSort_filter_stable ?_ l
  intro a b ha hb
  simp only [decide_eq_true_eq] at ha hb
  exact jsRel_of_keyVal_eq k asc (ha.trans hb.symm)

lemma keyTop_some {α K : Type} [LinearOrder K] (v : α → Option K) {a : α} {x : K}
    (h : v a = some x) : keyTop v a = (x : WithTop K) := by
  unfold keyTop
  rw [h]

lemma keyBot_some {α K : Type} [LinearOrder K] (v : α → Option K) {a : α} {x : K}
    (h : v a = some x) : keyBot v a = (x : WithBot K) := by
  unfold keyBot
  rw [h]

lemma keyTop_inj {α K : Type} [LinearOrder K] (v : α → Option K) {a b : α}
    (h : keyTop v a = keyTop v b) : v a = v b := by
  unfold keyTop at h
  rcases ha : v a with _ | x <;> rcases hb : v b with _ | y <;> rw [ha, hb] at h <;>
    simp_all

/-- C8: toggling the direction while keeping the sort key reverses the
non-null-valued records exactly, provided the non-null sort values are
pairwise distinct, and the null-valued records remain last in both
directions. -/
theorem c8_direction_toggle_reverses :
    ∀ (l : List Trade) (k : SortKey),
      ((l.filter (fun t => !(keyVal k t).isNone)).Pairwise
          (fun a b => keyVal k a ≠ keyVal k b)) →
      ((sortedTrades k false l).filter (fun t => !(keyVal k t).isNone) =
          ((sortedTrades k true l).filter (fun t => !(keyVal k t).isNone)).reverse) ∧
      (sortedTrades k true l =
          (sortedTrades k true l).filter (fun t => !(keyVal k t).isNone) ++
            (sortedTrades k true l).filter (fun t => (keyVal k t).isNone)) ∧
      (sortedTrades k false l =
          (sortedTrades k false l).filter (fun t => !(keyVal k t).isNone) ++
            (sortedTrades k false l).filter (fun t => (keyVal k t).isNone)) := by
  intro l k hd
  refine ⟨?_, sortedTrades_nulls_last l k true, sortedTrades_nulls_last l k false⟩
  have pA : List.Perm ((sortedTrades k true l).filter (fun t => !(keyVal k t).isNone))
      (l.filter (fun t => !(keyVal k t).isNone)) :=
    List.Perm.filter _ (perm_sortedTrades k true l)
  have pD : List.Perm ((sortedTrades k false l).filter (fun t => !(keyVal k t).isNone))
      (l.filter (fun t => !(keyVal k t).isNone)) :=
    List.Perm.filter _ (perm_sortedTrades k false l)
  have hsymm : ∀ {a b : Trade}, keyVal k a ≠ keyVal k b → keyVal k b ≠ keyVal k a :=
    fun h e => h e.symm
  have hdA : ((sortedTrades k true l).filter (fun t => !(keyVal k t).isNone)).Pairwise
      (fun a b => keyVal k a ≠ keyVal k b) := (pA.pairwise_iff hsymm).mpr hd
  have hdD : ((sortedTrades k false l).filter (fun t => !(keyVal k t).isNone)).Pairwise
      (fun a b => keyVal k a ≠ keyVal k b) := (pD.pairwise_iff hsymm).mpr hd
  have hsortA : ((sortedTrades k true l).filter (fun t => !(keyVal k t).isNone)).Pairwise
      (jsRel (keyVal k) true) :=
    List.Pairwise.sublist (List.filter_sublist _) (sorted_sortedTrades k true l)
  have hsortD : ((sortedTrades k false l).filter (fun t => !(keyVal k t).isNone)).Pairwise
      (jsRel (keyVal k) false) :=
    List.Pairwise.sublist (List.filter_sublist _) (sorted_sortedTrades k false l)
  have hstrictA : ((sortedTrades k true l).filter (fun t => !(keyVal k t).isNone)).Pairwise
      (fun a b => keyTop (keyVal k) a < keyTop (keyVal k) b) := by
    refine (hsortA.and hdA).imp ?_
    rintro a b ⟨h1, h2⟩
    exact lt_of_le_of_ne ((jsRel_true_iff (keyVal k) a b).mp h1)
      (fun e => h2 (keyTop_inj (keyVal k) e))
  have hstrictD : ((sortedTrades k false l).filter (fun t => !(keyVal k t).isNone)).Pairwise
      (fun a b => keyBot (keyVal k) b < keyBot (keyVal k) a) := by
    refine (hsortD.and hdD).imp ?_
    rintro a b ⟨h1, h2⟩
    refine lt_of_le_of_ne ((jsRel_false_iff (keyVal k) a b).mp h1) ?_
    intro e
    refine h2 ?_
    unfold keyBot at e
    rcases ha : keyVal k a with _ | x <;> rcases hb : keyVal k b with _ | y <;>
      rw [ha, hb] at e <;> simp_all
  have hrev : (((sortedTrades k false l).filter
      (fun t => !(keyVal k t).isNone)).reverse).Pairwise
      (fun a b => keyBot (keyVal k) a < keyBot (keyVal k) b) :=
    List.pairwise_reverse.mpr hstrictD
  have hmem : ∀ t ∈ ((sortedTrades k false l).filter
      (fun t => !(keyVal k t).isNone)).reverse, ∃ x, keyVal k t = some x := by
    intro t ht
    rw [List.mem_reverse] at ht
    have h2 := (List.mem_filter.mp ht).2
    rcases hx : keyVal k t with _ | x
    · rw [hx] at h2
      simp at h2
    · exact ⟨x, rfl⟩
  have hstrictDrev : (((sortedTrades k false l).filter
      (fun t => !(keyVal k t).isNone)).reverse).Pairwise
      (fun a b => keyTop (keyVal k) a < keyTop (keyVal k) b) := by
    refine hrev.imp_of_mem ?_
    intro a b ha hb h
    rcases hmem a ha with ⟨x, hx⟩
    rcases hmem b hb with ⟨y, hy⟩
    rw [keyBot_some (keyVal k) hx, keyBot_some (keyVal k) hy] at h
    rw [keyTop_some (keyVal k) hx, keyTop_some (keyVal k) hy]
    exact_mod_cast WithBot.coe_lt_coe.mp h
  have hperm : List.Perm ((sortedTrades k true l).filter (fun t => !(keyVal k t).isNone))
      (((sortedTrades k false l).filter (fun t => !(keyVal k t).isNone)).reverse) :=
    pA.trans (pD.symm.trans (List.reverse_perm _).symm)
  haveI : IsAntisymm Trade (fun a b => keyTop (keyVal k) a < keyTop (keyVal k) b) :=
    ⟨fun a b h1 h2 => absurd h2 (lt_asymm h1)⟩
  have heq : (sortedTrades k true l).filter (fun t => !(keyVal k t).isNone) =
      ((sortedTrades k false l).filter (fun t => !(keyVal k t).isNone)).reverse :=
    List.eq_of_perm_of_sorted hperm hstrictA hstrictDrev
  rw [heq, List.reverse_reverse]

/-- Sample record used by concrete witnesses: everything defaulted except
`profit_loss`. -/
def mkPL (o : Option ℚ) : Trade :=
  ⟨[], [], TradeType.Buy, 1, none, 1, 1, 0, none, o, 0, none⟩

theorem c8_direction_toggle_reverses_witness :
    (([mkPL (some 2), mkPL (some 1), mkPL none].filter
        (fun t => !(keyVal SortKey.profit_loss t).isNone)).Pairwise
        (fun a b => keyVal SortKey.profit_loss a ≠ keyVal SortKey.profit_loss b)) ∧
    ((sortedTrades SortKey.profit_loss false [mkPL (some 2), mkPL (some 1), mkPL none]).filter
        (fun t => !(keyVal SortKey.profit_loss t).isNone) =
      ((sortedTrades SortKey.profit_loss true [mkPL (some 2), mkPL (some 1), mkPL none]).filter
        (fun t => !(keyVal SortKey.profit_loss t).isNone)).reverse) :=
  ⟨by decide,
    (c8_direction_toggle_reverses [mkPL (some 2), mkPL (some 1), mkPL none]
      SortKey.profit_loss (by decide)).1⟩

/-- Increment slot `i` of the counter array (`riskRewardRanges[i].count++`). -/
def bump (c : List ℕ) (i : ℕ) : List ℕ :=
  c.set i (c.getD i 0 + 1)

/-- One iteration of the `filteredTrades.forEach` loop of `Analytics.tsx`
(lines 211-219): the `if / else if` chain picks the slot to increment. -/
def rrStep (c : List ℕ) (t : Trade) : List ℕ :=
  let rr := t.risk_reward_ratio
  if rr < 1 then bump c 0
  else if rr < 3/2 then bump c 1
  else if rr < 2 then bump c 2
  else if rr < 3 then bump c 3
  else bump c 4

/-- The five bucket counts of `riskRewardRanges` in `Analytics.tsx`
(lines 203-219), in label order `< 1`, `1 - 1.5`, `1.5 - 2`, `2 - 3`, `> 3`,
all starting from zero. -/
def riskRewardCounts (trades : List Trade) : List ℕ :=
  trades.foldl rrStep [0, 0, 0, 0, 0]

/-- The bucket index as the specification describes it: the index of the
first predicate in the list `ratio < 1`, `ratio < 1.5`, `ratio < 2`,
`ratio < 3` that holds, and the last bucket (index 4) when none does. -/
def specBucket (r : ℚ) : ℕ :=
  List.findIdx (fun p => p r)
    [fun r => decide (r < 1), fun r => decide (r < 3/2),
     fun r => decide (r < 2), fun r => decide (r < 3)]

lemma specBucket_eq (r : ℚ) :
    specBucket r =
      if r < 1 then 0 else if r < 3/2 then 1 else if r < 2 then 2
        else if r < 3 then 3 else 4 := by
  unfold specBucket
  simp only [List.findIdx_cons, List.findIdx_nil]
  by_cases h1 : r < 1 <;> by_cases h2 : r < 3/2 <;> by_cases h3 : r < 2 <;>
    by_cases h4 : r < 3 <;> simp [h1, h2, h3, h4]

lemma rrStep_five (a b c d e : ℕ) (t : Trade) :
    rrStep [a, b, c, d, e] t =
      if t.risk_reward_ratio < 1 then [a + 1, b, c, d, e]
      else if t.risk_reward_ratio < 3/2 then [a, b + 1, c, d, e]
      else if t.risk_reward_ratio < 2 then [a, b, c + 1, d, e]
      else if t.risk_reward_ratio < 3 then [a, b, c, d + 1, e]
      else [a, b, c, d, e + 1] := by
  unfold rrStep bump
  dsimp only
  split_ifs <;> rfl

lemma foldl_rrStep (l : List Trade) : ∀ a b c d e : ℕ,
    List.foldl rrStep [a, b, c, d, e] l =
      [a + l.countP (fun t => specBucket t.risk_reward_ratio == 0),
       b + l.countP (fun t => specBucket t.risk_reward_ratio == 1),
       c + l.countP (fun t => specBucket t.risk_reward_ratio == 2),
       d + l.countP (fun t => specBucket t.risk_reward_ratio == 3),
       e + l.countP (fun t => specBucket t.risk_reward_ratio == 4)] := by
  induction l with
  | nil => intro a b c d e; simp
  | cons t l ih =>
    intro a b c d e
    rw [List.foldl_cons, rrStep_five]
    have hb := specBucket_eq t.risk_reward_ratio
    split_ifs with h1 h2 h3 h4
    · rw [if_pos h1] at hb
      rw [ih]
      simp [List.countP_cons, hb]
      omega
    · rw [if_neg h1, if_pos h2] at hb
      rw [ih]
      simp [List.countP_cons, hb]
      omega
    · rw [if_neg h1, if_neg h2, if_pos h3] at hb
      rw [ih]
      simp [List.countP_cons, hb]
      omega
    · rw [if_neg h1, if_neg h2, if_neg h3, if_pos h4] at hb
      rw [ih]
      simp [List.countP_cons, hb]
      omega
    · rw [if_neg h1, if_neg h2, if_neg h3, if_neg h4] at hb
      rw [ih]
      simp [List.countP_cons, hb]
      omega

lemma bucket_counts_sum (l : List Trade) :
    [l.countP (fun t => specBucket t.risk_reward_ratio == 0),
     l.countP (fun t => specBucket t.risk_reward_ratio == 1),
     l.countP (fun t => specBucket t.risk_reward_ratio == 2),
     l.countP (fun t => specBucket t.risk_reward_ratio == 3),
     l.countP (fun t => specBucket t.risk_reward_ratio == 4)].sum = l.length := by
  induction l with
  | nil => simp
  | cons t l ih =>
    have hb := specBucket_eq t.risk_reward_ratio
    simp only [List.sum_cons, List.sum_nil, List.length_cons] at ih ⊢
    split_ifs at hb <;> simp [List.countP_cons, hb] <;> omega

/-- C2: the histogram assigns each record to exactly one bucket, the one
given by the first matching predicate in the order `< 1`, `< 1.5`, `< 2`,
`< 3`, otherwise the last: slot `i` counts exactly the records whose
first-matching index is `i`, the counts sum to the number of records, and a
ratio of exactly `1.5` lands in the `1.5 - 2` bucket (index 2). -/
theorem c2_histogram_first_predicate :
    ∀ l : List Trade,
      (riskRewardCounts l =
        [l.countP (fun t => specBucket t.risk_reward_ratio == 0),
         l.countP (fun t => specBucket t.risk_reward_ratio == 1),
         l.countP (fun t => specBucket t.risk_reward_ratio == 2),
         l.countP (fun t => specBucket t.risk_reward_ratio == 3),
         l.countP (fun t => specBucket t.risk_reward_ratio == 4)]) ∧
      (riskRewardCounts l).sum = l.length ∧
      specBucket (3/2) = 2 := by
  intro l
  have hmain : riskRewardCounts l =
      [l.countP (fun t => specBucket t.risk_reward_ratio == 0),
       l.countP (fun t => specBucket t.risk_reward_ratio == 1),
       l.countP (fun t => specBucket t.risk_reward_ratio == 2),
       l.countP (fun t => specBucket t.risk_reward_ratio == 3),
       l.countP (fun t => specBucket t.risk_reward_ratio == 4)] := by
    unfold riskRewardCounts
    rw [foldl_rrStep]
    simp
  refine ⟨hmain, ?_, by rw [specBucket_eq]; norm_num⟩
  rw [hmain]
  exact bucket_counts_sum l

/-- Sample record used by histogram examples: everything defaulted except
`risk_reward_ratio`. -/
def mkRR (q : ℚ) : Trade :=
  ⟨[], [], TradeType.Buy, 1, none, 1, 1, 0, none, none, q, none⟩

/-- The record set of the specification's histogram example: ratios
`[0.5, 1.5, 1.8, 2.9, 4.0]`. -/
def histSample : List Trade :=
  [mkRR (1/2), mkRR (3/2), mkRR (9/5), mkRR (29/10), mkRR 4]

/-- C1 (counterexample): on ratios `[0.5, 1.5, 1.8, 2.9, 4.0]` the histogram
does not produce the claimed counts `[1,1,1,1,1]`. -/
theorem c1_histogram_example_counterexample :
    riskRewardCounts histSample ≠ [1, 1, 1, 1, 1] := by
  norm_num [riskRewardCounts, histSample, mkRR, rrStep, bump]

/-- C1 (amended): on ratios `[0.5, 1.5, 1.8, 2.9, 4.0]` the bucket counts
are `[1, 0, 2, 1, 1]`: the boundary value `1.5` is counted in the third
bucket (labelled `1.5 - 2`), not the second. -/
theorem c1_histogram_example :
    riskRewardCounts histSample = [1, 0, 2, 1, 1] ∧ specBucket (3/2) = 2 := by
  constructor
  · norm_num [riskRewardCounts, histSample, mkRR, rrStep, bump]
  · rw [specBucket_eq]
    norm_num

/-- JS falsiness of an optional numeric form value: absent (or `NaN`) and
`0` are falsy. -/
def jsFalsy (x : Option ℚ) : Bool :=
  match x with
  | none => true
  | some q => q == 0

/-- Rounding to two decimal places: `toFixed(2)` followed by `parseFloat`. -/
def round2 (q : ℚ) : ℚ :=
  ((round (q * 100) : ℤ) : ℚ) / 100

/-- Direct translation of `calculateRiskReward` of `TradeJournal.tsx`
(lines 38-53): guard on falsy inputs, the per-direction risk and reward
differences, the `risk <= 0` guard, and the two-decimal rounding the
`toFixed(2)` / `parseFloat` round trip performs on the returned quotient. -/
def calculateRiskReward (tradeType : TradeType)
    (entryPrice stopLoss takeProfit : Option ℚ) : ℚ :=
  if jsFalsy stopLoss || jsFalsy takeProfit || jsFalsy entryPrice then 0
  else
    let e := entryPrice.getD 0
    let s := stopLoss.getD 0
    let tp := takeProfit.getD 0
    let risk := if tradeType = TradeType.Buy then e - s else s - e
    let reward := if tradeType = TradeType.Buy then tp - e else e - tp
    if risk ≤ 0 then 0 else round2 (reward / risk)

/-- The `risk_reward_ratio` value the `onSubmit` handler of
`TradeJournal.tsx` inserts (lines 96-97):
`data.take_profit && data.stop_loss ? parseFloat(calculateRiskReward()) : 0`. -/
def persistedRiskReward (tradeType : TradeType) (e s tp : Option ℚ) : ℚ :=
  if !(jsFalsy tp) && !(jsFalsy s) then calculateRiskReward tradeType e s tp else 0

/-- The risk:reward contract as the specification states it in §4.4, with
the two-decimal rounding the code actually applies to the result: per-type
risk and reward differences, `0` on `risk ≤ 0`, otherwise the rounded
quotient. -/
def riskRewardSpec (tradeType : TradeType) (e s tp : ℚ) : ℚ :=
  let risk := match tradeType with
    | TradeType.Buy => e - s
    | TradeType.Sell => s - e
  let reward := match tradeType with
    | TradeType.Buy => tp - e
    | TradeType.Sell => e - tp
  if risk ≤ 0 then 0 else round2 (reward / risk)

/-- C4 (amended): for positive prices the computation agrees with the §4.4
formula with the quotient rounded to two decimals (not the raw quotient),
and the two concrete examples of the specification hold:
`riskReward(Buy, 100, 90, 130) = 3` and `riskReward(Buy, 100, 110, 130) = 0`. -/
theorem c4_riskReward_formula :
    (∀ (ty : TradeType) (e s tp : ℚ), 0 < e → 0 < s → 0 < tp →
      calculateRiskReward ty (some e) (some s) (some tp) = riskRewardSpec ty e s tp) ∧
    calculateRiskReward TradeType.Buy (some 100) (some 90) (some 130) = 3 ∧
    calculateRiskReward TradeType.Buy (some 100) (some 110) (some 130) = 0 := by
  refine ⟨?_, ?_, ?_⟩
  · intro ty e s tp he hs htp
    cases ty <;>
      simp [calculateRiskReward, riskRewardSpec, jsFalsy, he.ne', hs.ne', htp.ne']
  · have h3 : round2 ((130 - 100) / (100 - 90) : ℚ) = 3 := by
      unfold round2
      rw [show ((130 - 100) / (100 - 90) : ℚ) * 100 = 300 by norm_num]
      norm_num
    simp [calculateRiskReward, jsFalsy, h3]
    norm_num
  · norm_num [calculateRiskReward, jsFalsy]

theorem c4_riskReward_formula_witness :
    ((0:ℚ) < 2 ∧ (0:ℚ) < 1 ∧ (0:ℚ) < 5) ∧
    calculateRiskReward TradeType.Buy (some 2) (some 1) (some 5) =
      riskRewardSpec TradeType.Buy 2 1 5 :=
  ⟨⟨by norm_num, by norm_num, by norm_num⟩,
    c4_riskReward_formula.1 TradeType.Buy 2 1 5 (by norm_num) (by norm_num) (by norm_num)⟩

/-- C4 (counterexample): with entry 100, stop 97, target 101 on a Buy the
returned value is the rounded `0.33`, not the raw quotient `1/3`: the
result is not `reward / risk` as the claim states. -/
theorem c4_riskReward_unrounded_counterexample :
    calculateRiskReward TradeType.Buy (some 100) (some 97) (some 101) = 33/100 ∧
    (33/100 : ℚ) ≠ (101 - 100) / (100 - 97 : ℚ) := by
  constructor
  · have h : round2 ((101 - 100) / (100 - 97) : ℚ) = 33/100 := by
      unfold round2
      rw [show ((101 - 100) / (100 - 97) : ℚ) * 100 = 100/3 by norm_num, round_eq]
      norm_num
    simp [calculateRiskReward, jsFalsy, h]
    norm_num
  · norm_num

/-- C5 (amended): the persisted `risk_reward_ratio` equals the quotient
rounded to two decimal places (the `toFixed(2)`/`parseFloat` result), not
the unrounded quotient. -/
theorem c5_persisted_is_rounded :
    ∀ (ty : TradeType) (e s tp : ℚ), 0 < e → 0 < s → 0 < tp →
      persistedRiskReward ty (some e) (some s) (some tp) = riskRewardSpec ty e s tp := by
  intro ty e s tp he hs htp
  have hg : (!(jsFalsy (some tp)) && !(jsFalsy (some s))) = true := by
    simp [jsFalsy, hs.ne', htp.ne']
  unfold persistedRiskReward
  rw [if_pos hg]
  cases ty <;>
    simp [calculateRiskReward, riskRewardSpec, jsFalsy, he.ne', hs.ne', htp.ne']

theorem c5_persisted_is_rounded_witness :
    ((0:ℚ) < 2 ∧ (0:ℚ) < 1 ∧ (0:ℚ) < 5) ∧
    persistedRiskReward TradeType.Buy (some 2) (some 1) (some 5) =
      riskRewardSpec TradeType.Buy 2 1 5 :=
  ⟨⟨by norm_num, by norm_num, by norm_num⟩,
    c5_persisted_is_rounded TradeType.Buy 2 1 5 (by norm_num) (by norm_num) (by norm_num)⟩

/-- C5 (counterexample): with entry 100, stop 97, target 102 on a Buy the
persisted value is the rounded `0.67`, which differs from the unrounded
quotient `2/3` the claim says is persisted. -/
theorem c5_persisted_unrounded_counterexample :
    persistedRiskReward TradeType.Buy (some 100) (some 97) (some 102) = 67/100 ∧
    (67/100 : ℚ) ≠ (102 - 100) / (100 - 97 : ℚ) := by
  constructor
  · have h : round2 ((102 - 100) / (100 - 97) : ℚ) = 67/100 := by
      unfold round2
      rw [show ((102 - 100) / (100 - 97) : ℚ) * 100 = 200/3 by norm_num, round_eq]
      norm_num
    simp [persistedRiskReward, calculateRiskReward, jsFalsy, h]
    norm_num
  · norm_num

/-- C10: whenever any of the three inputs is absent or `0` (JS-falsy) the
computation returns `0` for both trade types and all other values — even
for a Sell with target `0` below entry, where the §4.4 Sell formula alone
would give the positive ratio `10`. -/
theorem c10_falsy_inputs_zero :
    (∀ (ty : TradeType) (e s tp : Option ℚ),
      (jsFalsy s || jsFalsy tp || jsFalsy e) = true →
      calculateRiskReward ty e s tp = 0) ∧
    calculateRiskReward TradeType.Sell (some 100) (some 110) (some 0) = 0 ∧
    riskRewardSpec TradeType.Sell 100 110 0 = 10 := by
  refine ⟨?_, ?_, ?_⟩
  · intro ty e s tp h
    unfold calculateRiskReward
    rw [if_pos h]
  · norm_num [calculateRiskReward, jsFalsy]
  · have h : round2 (10 : ℚ) = 10 := by
      unfold round2
      norm_num
    simp [riskRewardSpec]
    norm_num [h]

theorem c10_falsy_inputs_zero_witness :
    (jsFalsy (some 0) || jsFalsy (some 2) || jsFalsy (some 100)) = true ∧
    calculateRiskReward TradeType.Buy (some 100) (some 0) (some 2) = 0 :=
  ⟨by simp [jsFalsy],
    c10_falsy_inputs_zero.1 TradeType.Buy (some 100) (some 0) (some 2) (by simp [jsFalsy])⟩

/-- Direct translation of `handleRiskPercentageChange` of `Settings.tsx`
(lines 56-61): the parsed input (`none` models `NaN`) replaces the stored
value only when it lies in `[0.1, 10]`; otherwise the state is unchanged. -/
def handleRiskPercentageChange (prev : ℚ) (value : Option ℚ) : ℚ :=
  match value with
  | none => prev
  | some v => if 1/10 ≤ v ∧ v ≤ 10 then v else prev

lemma handleRisk_preserves (st : ℚ) (h1 : 1/10 ≤ st) (h2 : st ≤ 10) (x : Option ℚ) :
    1/10 ≤ handleRiskPercentageChange st x ∧ handleRiskPercentageChange st x ≤ 10 := by
  rcases x with _ | v
  · exact ⟨h1, h2⟩
  · unfold handleRiskPercentageChange
    dsimp only
    by_cases hv : 1/10 ≤ v ∧ v ≤ 10
    · rw [if_pos hv]
      exact hv
    · rw [if_neg hv]
      exact ⟨h1, h2⟩

/-- C9: the change handler stores an input value exactly when it parses to a
number in `[0.1, 10]`, leaves the state unchanged for `NaN` or out-of-range
input, and consequently, starting from the default `2`, the stored risk
percentage stays within `[0.1, 10]` over any input sequence. -/
theorem c9_risk_percentage_validation :
    (∀ prev v : ℚ, 1/10 ≤ v → v ≤ 10 → handleRiskPercentageChange prev (some v) = v) ∧
    (∀ prev v : ℚ, ¬(1/10 ≤ v ∧ v ≤ 10) → handleRiskPercentageChange prev (some v) = prev) ∧
    (∀ prev : ℚ, handleRiskPercentageChange prev none = prev) ∧
    (∀ inputs : List (Option ℚ),
      1/10 ≤ List.foldl handleRiskPercentageChange 2 inputs ∧
      List.foldl handleRiskPercentageChange 2 inputs ≤ 10) := by
  refine ⟨?_, ?_, ?_, ?_⟩
  · intro prev v h1 h2
    unfold handleRiskPercentageChange
    dsimp only
    rw [if_pos ⟨h1, h2⟩]
  · intro prev v h
    unfold handleRiskPercentageChange
    dsimp only
    rw [if_neg h]
  · intro prev
    rfl
  · have key : ∀ (inputs : List (Option ℚ)) (st : ℚ), 1/10 ≤ st → st ≤ 10 →
        1/10 ≤ List.foldl handleRiskPercentageChange st inputs ∧
        List.foldl handleRiskPercentageChange st inputs ≤ 10 := by
      intro inputs
      induction inputs with
      | nil => intro st h1 h2; exact ⟨h1, h2⟩
      | cons x xs ih =>
        intro st h1 h2
        rw [List.foldl_cons]
        have hstep := handleRisk_preserves st h1 h2 x
        exact ih _ hstep.1 hstep.2
    intro inputs
    exact key inputs 2 (by norm_num) (by norm_num)

theorem c9_risk_percentage_validation_witness :
    handleRiskPercentageChange 2 (some 5) = 5 ∧
    handleRiskPercentageChange 2 (some 50) = 2 ∧
    1/10 ≤ List.foldl handleRiskPercentageChange 2 [some 5, some 50, none] ∧
    List.foldl handleRiskPercentageChange 2 [some 5, some 50, none] ≤ 10 :=
  ⟨c9_risk_percentage_validation.1 2 5 (by norm_num) (by norm_num),
   c9_risk_percentage_validation.2.1 2 50 (by norm_num),
   c9_risk_percentage_validation.2.2.2 [some 5, some 50, none]⟩

/-- Two records with the same `profit_loss` but different entry prices. -/
def tiedA : Trade :=
  ⟨[], [], TradeType.Buy, 1, none, 1, 1, 0, none, some 1, 0, none⟩

/-- Second record of the tied pair. -/
def tiedB : Trade :=
  ⟨[], [], TradeType.Buy, 2, none, 1, 1, 0, none, some 1, 0, none⟩

/-- C8 (counterexample): with two records sharing the sort value, stability
keeps both directions in input order, so the descending result is not the
reverse of the ascending one. -/
theorem c8_equal_values_counterexample :
    (sortedTrades SortKey.profit_loss false [tiedA, tiedB]).filter
        (fun t => !(keyVal SortKey.profit_loss t).isNone) ≠
      ((sortedTrades SortKey.profit_loss true [tiedA, tiedB]).filter
        (fun t => !(keyVal SortKey.profit_loss t).isNone)).reverse := by
  decide
